import Mathlib

/-!
Shallow embedding of the CHIP-8 virtual machine core (`src/main.py`, class
`Chip8`), together with proofs of the behavioural claims about it.

Conventions of the embedding:
* `bytearray` fields become `List Nat`; the Python object invariant keeps
  their lengths fixed (16 for `V` and `keypad`, 4096 for `memory`), which
  theorems carry as explicit hypotheses where needed.
* the numpy display becomes `List (List Nat)` (32 rows of 64 pixels).
* Python operations that can raise (`list.pop` on an empty list, indexing a
  `bytearray` out of range, assigning a value outside `0..255` to a
  `bytearray` cell) are modelled with `Option`: `none` is the raised
  exception, `some s` the successor state.
* timers are `Int` (Python integers are unbounded and signed), so that the
  non-negativity of the timers is a real property of the code, not of the
  encoding.
-/

/-- Read pixel `(i, j)` of a display (row `i`, column `j`), `0` out of range. -/
def dget (d : List (List Nat)) (i j : Nat) : Nat :=
  (d.getD i []).getD j 0

/-- Write pixel `(i, j)` of a display (no-op out of range, as `List.set`). -/
def dset (d : List (List Nat)) (i j v : Nat) : List (List Nat) :=
  d.set i ((d.getD i []).set j v)

/-- Well-formedness of the display: 32 rows of 64 pixels, as allocated by
`np.zeros((32, 64))` in `Chip8.__init__`. -/
def dispWF (d : List (List Nat)) : Prop :=
  d.length = 32 ∧ ∀ row ∈ d, row.length = 64

/-- The machine state of class `Chip8` (`src/main.py`). -/
structure Chip8 where
  memory : List Nat
  V : List Nat
  I : Nat
  pc : Nat
  stack : List Nat
  delay_timer : Int
  sound_timer : Int
  display : List (List Nat)
  keypad : List Nat
  waiting_for_key : Bool
  key_register : Nat

/-- The font sprite data written into low memory by `Chip8.__init__`. -/
def fontset : List Nat :=
  [0xF0, 0x90, 0x90, 0x90, 0xF0,
   0x20, 0x60, 0x20, 0x20, 0x70,
   0xF0, 0x10, 0xF0, 0x80, 0xF0,
   0xF0, 0x10, 0xF0, 0x10, 0xF0,
   0x90, 0x90, 0xF0, 0x10, 0x10,
   0xF0, 0x80, 0xF0, 0x10, 0xF0,
   0xF0, 0x80, 0xF0, 0x90, 0xF0,
   0xF0, 0x10, 0x20, 0x40, 0x40,
   0xF0, 0x90, 0xF0, 0x90, 0xF0,
   0xF0, 0x90, 0xF0, 0x10, 0xF0,
   0xF0, 0x90, 0xF0, 0x90, 0x90,
   0xE0, 0x90, 0xE0, 0x90, 0xE0,
   0xF0, 0x80, 0x80, 0x80, 0xF0,
   0xE0, 0x90, 0x90, 0x90, 0xE0,
   0xF0, 0x80, 0xF0, 0x80, 0xF0,
   0xF0, 0x80, 0xF0, 0x80, 0x80]

/-- Store a list of bytes at consecutive addresses (the `__init__` font copy
loop; every write there is in bounds). -/
def storeBytes : List Nat → Nat → List Nat → List Nat
  | [], _, mem => mem
  | b :: rest, a, mem => storeBytes rest (a + 1) (mem.set a b)

/-- The freshly constructed machine of `Chip8.__init__`. -/
def initState : Chip8 where
  memory := storeBytes fontset 0 (List.replicate 4096 0)
  V := List.replicate 16 0
  I := 0
  pc := 0x200
  stack := []
  delay_timer := 0
  sound_timer := 0
  display := List.replicate 32 (List.replicate 64 0)
  keypad := List.replicate 16 0
  waiting_for_key := false
  key_register := 0

/-- Store a list of bytes at consecutive addresses, failing (as the Python
`bytearray` write raises `IndexError`) at the first out-of-range address.
This is the loop of `Chip8.load_rom`. -/
def writeBytes : List Nat → Nat → List Nat → Option (List Nat)
  | [], _, mem => some mem
  | b :: rest, a, mem =>
    if a < mem.length then writeBytes rest (a + 1) (mem.set a b) else none

/-- `Chip8.load_rom`: copy the ROM bytes into memory starting at `0x200`. -/
def load_rom (rom : List Nat) (s : Chip8) : Option Chip8 :=
  (writeBytes rom 0x200 s.memory).map fun m => { s with memory := m }

/-- Inner loop of the `Dxyn` draw: one sprite row `sr` drawn at display row
`yr` starting at column `xc`, over the remaining column indices `cs`
(`range(8)` in the source).  State is (display, value of `V[0xF]`).
Columns reaching `xc + c ≥ 64` break out of the loop. -/
def drawCols (sr xc yr : Nat) : List Nat → List (List Nat) × Nat → List (List Nat) × Nat
  | [], st => st
  | c :: rest, st =>
    if 64 ≤ xc + c then st
    else
      drawCols sr xc yr rest
        (if sr &&& (0x80 >>> c) ≠ 0 then
          (dset st.1 yr (xc + c) (dget st.1 yr (xc + c) ^^^ 1),
           if dget st.1 yr (xc + c) ≠ 0 then 1 else st.2)
        else st)

/-- Outer loop of the `Dxyn` draw over the remaining row indices `rs`
(`range(n)` in the source).  A row reaching `yc + r ≥ 32` breaks out of the
loop; the sprite byte read `memory[I + row]` can raise, hence `Option`. -/
def drawRows (mem : List Nat) (iR xc yc : Nat) :
    List Nat → List (List Nat) × Nat → Option (List (List Nat) × Nat)
  | [], st => some st
  | r :: rest, st =>
    if 32 ≤ yc + r then some st
    else
      match mem[iR + r]? with
      | some sr => drawRows mem iR xc yc rest (drawCols sr xc (yc + r) (List.range 8) st)
      | none => none

/-- Range check of a value assigned into a `bytearray` cell (raises
`ValueError` outside `0..255`). -/
def byteOf (v : Int) : Option Nat :=
  if 0 ≤ v ∧ v < 256 then some v.toNat else none

/-- `Chip8.execute_opcode`, the sequential `if/elif` dispatch of the source,
in source order.  `none` models a raised exception. -/
def execute_opcode (opcode : Nat) (s : Chip8) : Option Chip8 :=
  let x := (opcode &&& 0x0F00) >>> 8
  let y := (opcode &&& 0x00F0) >>> 4
  let nnn := opcode &&& 0x0FFF
  let nn := opcode &&& 0x00FF
  let n := opcode &&& 0x000F
  if opcode &&& 0xF000 = 0x0000 then
    if opcode = 0x00E0 then
      some { s with display := List.replicate 32 (List.replicate 64 0) }
    else if opcode = 0x00EE then
      match s.stack.getLast? with
      | some a => some { s with pc := a, stack := s.stack.dropLast }
      | none => none
    else some s
  else if opcode &&& 0xF000 = 0x1000 then
    some { s with pc := nnn }
  else if opcode &&& 0xF000 = 0x2000 then
    some { s with stack := s.stack ++ [s.pc], pc := nnn }
  else if opcode &&& 0xF000 = 0x3000 then
    some (if s.V.getD x 0 = nn then { s with pc := s.pc + 2 } else s)
  else if opcode &&& 0xF000 = 0x6000 then
    some { s with V := s.V.set x nn }
  else if opcode &&& 0xF000 = 0x7000 then
    some { s with V := s.V.set x ((s.V.getD x 0 + nn) &&& 0xFF) }
  else if opcode &&& 0xF000 = 0xA000 then
    some { s with I := nnn }
  else if opcode &&& 0xF000 = 0xE000 then
    if nn = 0x9E then
      match s.keypad[s.V.getD x 0]? with
      | some k => some (if k ≠ 0 then { s with pc := s.pc + 2 } else s)
      | none => none
    else if nn = 0xA1 then
      match s.keypad[s.V.getD x 0]? with
      | some k => some (if k = 0 then { s with pc := s.pc + 2 } else s)
      | none => none
    else some s
  else if opcode &&& 0xF000 = 0xF000 then
    if nn = 0x0A then
      some { s with waiting_for_key := true, key_register := x }
    else if nn = 0x15 then
      some { s with delay_timer := (s.V.getD x 0 : Int) }
    else if nn = 0x18 then
      some { s with sound_timer := (s.V.getD x 0 : Int) }
    else if nn = 0x07 then
      match byteOf s.delay_timer with
      | some b => some { s with V := s.V.set x b }
      | none => none
    else some s
  else if opcode &&& 0xF000 = 0xD000 then
    let x_coord := s.V.getD x 0 &&& 63
    let y_coord := s.V.getD y 0 &&& 31
    match drawRows s.memory s.I x_coord y_coord (List.range n) (s.display, 0) with
    | some (d, vf) => some { s with display := d, V := s.V.set 0xF vf }
    | none => none
  else some s

/-- `Chip8.emulate_cycle`: no-op while suspended; otherwise fetch the
big-endian opcode at `pc`, advance `pc` by 2, execute, then decrement each
timer that is positive. -/
def emulate_cycle (s : Chip8) : Option Chip8 :=
  if s.waiting_for_key then some s
  else
    match s.memory[s.pc]?, s.memory[s.pc + 1]? with
    | some hi, some lo =>
      match execute_opcode ((hi <<< 8) ||| lo) { s with pc := s.pc + 2 } with
      | some t =>
        some { t with
          delay_timer := if 0 < t.delay_timer then t.delay_timer - 1 else t.delay_timer,
          sound_timer := if 0 < t.sound_timer then t.sound_timer - 1 else t.sound_timer }
      | none => none
    | _, _ => none

/-- One iteration of the key loop in `Chip8Emulator.handle_input`: mark the
held key `v` and, if the machine is suspended, resolve the key wait by
storing `v` into `V[key_register]` and clearing the flag. -/
def inputStep (t : Chip8) (v : Nat) : Chip8 :=
  let t' := { t with keypad := t.keypad.set v 1 }
  if t'.waiting_for_key then
    { t' with V := t'.V.set t'.key_register v, waiting_for_key := false }
  else t'

/-- `Chip8Emulator.handle_input`: reset the keypad, then mark each held key
(`pressed` lists the CHIP-8 key indices in the fixed enumeration order of the
key-mapping table); the first held key observed while the machine is
suspended resolves the key wait. -/
def handle_input (pressed : List Nat) (s : Chip8) : Chip8 :=
  pressed.foldl inputStep { s with keypad := List.replicate 16 0 }

/-- States reachable from construction through the operations of the driving
loop: ROM loading, input refresh, and emulation cycles. -/
inductive Reachable : Chip8 → Prop
  | init : Reachable initState
  | load (rom : List Nat) (s s' : Chip8) :
      Reachable s → load_rom rom s = some s' → Reachable s'
  | input (pressed : List Nat) (s : Chip8) :
      Reachable s → Reachable (handle_input pressed s)
  | cycle (s s' : Chip8) :
      Reachable s → emulate_cycle s = some s' → Reachable s'

/-- The opcode patterns implemented by `execute_opcode` (spec §4.2 table). -/
def isSupported (op : Nat) : Prop :=
  op = 0x00E0 ∨ op = 0x00EE ∨
  op &&& 0xF000 = 0x1000 ∨ op &&& 0xF000 = 0x2000 ∨ op &&& 0xF000 = 0x3000 ∨
  op &&& 0xF000 = 0x6000 ∨ op &&& 0xF000 = 0x7000 ∨ op &&& 0xF000 = 0xA000 ∨
  op &&& 0xF000 = 0xD000 ∨
  (op &&& 0xF000 = 0xE000 ∧ (op &&& 0x00FF = 0x9E ∨ op &&& 0x00FF = 0xA1)) ∨
  (op &&& 0xF000 = 0xF000 ∧
    (op &&& 0x00FF = 0x0A ∨ op &&& 0x00FF = 0x15 ∨
     op &&& 0x00FF = 0x18 ∨ op &&& 0x00FF = 0x07))

instance (op : Nat) : Decidable (isSupported op) := by
  unfold isSupported; infer_instance

/-- The columns actually toggled by one sprite row: positions `xc + c` for
the column indices `c` the inner draw loop reaches with bit `c` of `sr` set. -/
def colHits (sr xc : Nat) : List Nat → List Nat
  | [] => []
  | c :: rest =>
    if 64 ≤ xc + c then []
    else if sr &&& (0x80 >>> c) ≠ 0 then (xc + c) :: colHits sr xc rest
    else colHits sr xc rest

/-- Specification-side predicate: pixel `(i, j)` receives a set sprite bit of
the `Dxyn` draw with sprite base `iR`, start `(x0, y0)` and height `n`
(row clipping at 32, column clipping at 64). -/
def drawnAt (mem : List Nat) (iR x0 y0 n i j : Nat) : Prop :=
  ∃ r ∈ List.range n, y0 + r < 32 ∧ i = y0 + r ∧ ∃ c ∈ List.range 8,
    x0 + c < 64 ∧ j = x0 + c ∧
    mem.getD (iR + r) 0 &&& (0x80 >>> c) ≠ 0

instance (mem : List Nat) (iR x0 y0 n i j : Nat) :
    Decidable (drawnAt mem iR x0 y0 n i j) := by
  unfold drawnAt; infer_instance

/-- Specification-side predicate: some set sprite bit of the draw lands on a
pixel of `d` that is already lit (the collision condition). -/
def collideAt (mem : List Nat) (iR x0 y0 n : Nat) (d : List (List Nat)) : Prop :=
  ∃ r ∈ List.range n, y0 + r < 32 ∧ ∃ c ∈ List.range 8,
    x0 + c < 64 ∧ mem.getD (iR + r) 0 &&& (0x80 >>> c) ≠ 0 ∧
    dget d (y0 + r) (x0 + c) ≠ 0

instance (mem : List Nat) (iR x0 y0 n : Nat) (d : List (List Nat)) :
    Decidable (collideAt mem iR x0 y0 n d) := by
  unfold collideAt; infer_instance

/-- Concrete state for the C2 counterexample: one lit pixel at `(0, 0)` and a
one-byte sprite `0x80` that targets exactly that pixel. -/
def c2state : Chip8 :=
  { initState with
    memory := [0x80]
    I := 0
    display := dset (List.replicate 32 (List.replicate 64 0)) 0 0 1 }

/-- Concrete draw state for the C1 witness: sprite byte `0xF0` at address 0. -/
def c1state : Chip8 :=
  { initState with
    memory := [0xF0]
    I := 0 }

/-- Result of the C1 witness draw. -/
def c1res : Chip8 := (execute_opcode 0xD011 c1state).getD initState

/-- Concrete draw state for the C2 witness: sprite byte `0x80` on a blank
display. -/
def c2wstate : Chip8 :=
  { initState with
    memory := [0x80]
    I := 0 }

/-- State after the first witness draw for C2. -/
def c2wmid : Chip8 := (execute_opcode 0xD011 c2wstate).getD initState

/-- State after the second witness draw for C2. -/
def c2wend : Chip8 := (execute_opcode 0xD011 c2wmid).getD initState

/-- Concrete state whose `V[0]` is 16, driving the keypad index of `Ex9E` and
`ExA1` out of the 16-entry range (claim C10). -/
def c10state : Chip8 :=
  { initState with V := (List.replicate 16 0).set 0 16 }

/-- Concrete fetchable state for the C6 witness: opcode `6005` at `pc = 0`. -/
def c6state : Chip8 :=
  { initState with
    pc := 0
    memory := [0x60, 0x05]
    delay_timer := 3 }

/-- Result of one emulation cycle on the C6 witness state. -/
def c6res : Chip8 := (emulate_cycle c6state).getD initState

/-- Result of the first counterexample draw on `c2state`. -/
def c2dmid : Chip8 := (execute_opcode 0xD011 c2state).getD initState

/-- Result of the second counterexample draw. -/
def c2dend : Chip8 := (execute_opcode 0xD011 c2dmid).getD initState

theorem getD_set_self {α : Type} (l : List α) (i : Nat) (v d : α) (h : i < l.length) :
    (l.set i v).getD i d = v := by
  rw [List.getD_eq_getElem?_getD, List.getElem?_set]
  simp [h]

theorem getD_set_ne {α : Type} (l : List α) (i j : Nat) (v d : α) (h : i ≠ j) :
    (l.set i v).getD j d = l.getD j d := by
  rw [List.getD_eq_getElem?_getD, List.getElem?_set_ne h, ← List.getD_eq_getElem?_getD]

theorem rowLen {d : List (List Nat)} (hwf : dispWF d) {i : Nat} (hi : i < 32) :
    (d.getD i []).length = 64 := by
  have hlen : i < d.length := by rw [hwf.1]; exact hi
  rw [List.getD_eq_getElem _ _ hlen]
  exact hwf.2 _ (List.getElem_mem hlen)

theorem dispWF_dset {d : List (List Nat)} (hwf : dispWF d) {i : Nat} (hi : i < 32)
    (j v : Nat) : dispWF (dset d i j v) := by
  constructor
  · rw [dset, List.length_set, hwf.1]
  · intro row hrow
    rcases List.mem_or_eq_of_mem_set hrow with h | h
    · exact hwf.2 _ h
    · rw [h, List.length_set]
      exact rowLen hwf hi

theorem dget_dset {d : List (List Nat)} (hwf : dispWF d) {i j : Nat}
    (hi : i < 32) (hj : j < 64) (v : Nat) (a b : Nat) :
    dget (dset d i j v) a b = if a = i ∧ b = j then v else dget d a b := by
  have hlen : i < d.length := by rw [hwf.1]; exact hi
  have hrow : j < (d.getD i []).length := by rw [rowLen hwf hi]; exact hj
  unfold dget dset
  by_cases ha : a = i
  · subst ha
    rw [getD_set_self _ _ _ _ hlen]
    by_cases hb : b = j
    · subst hb
      rw [getD_set_self _ _ _ _ hrow, if_pos ⟨rfl, rfl⟩]
    · rw [getD_set_ne _ _ _ _ _ (fun hh => hb hh.symm), if_neg (by tauto)]
  · rw [getD_set_ne _ _ _ _ _ (fun hh => ha hh.symm), if_neg (by tauto)]

theorem dispExt {d d' : List (List Nat)} (hwf : dispWF d) (hwf' : dispWF d')
    (h : ∀ a b, a < 32 → b < 64 → dget d a b = dget d' a b) : d = d' := by
  apply List.ext_getElem (by rw [hwf.1, hwf'.1])
  intro i hi hi'
  have h32 : i < 32 := by rw [← hwf.1]; exact hi
  apply List.ext_getElem
  · rw [hwf.2 _ (List.getElem_mem hi), hwf'.2 _ (List.getElem_mem hi')]
  · intro j hj hj'
    have h64 : j < 64 := by
      rw [hwf.2 _ (List.getElem_mem hi)] at hj; exact hj
    have e1 : dget d i j = d[i][j] := by
      rw [dget, List.getD_eq_getElem _ _ hi, List.getD_eq_getElem _ _ hj]
    have e2 : dget d' i j = d'[i][j] := by
      rw [dget, List.getD_eq_getElem _ _ hi', List.getD_eq_getElem _ _ hj']
    rw [← e1, ← e2]
    exact h i j h32 h64

theorem and_two_pow_sub_one_eq_mod (a n : Nat) : a &&& (2 ^ n - 1) = a % 2 ^ n := by
  apply Nat.eq_of_testBit_eq
  intro i
  rw [Nat.testBit_and, Nat.testBit_two_pow_sub_one, Nat.testBit_mod_two_pow,
    Bool.and_comm]

theorem and_63_eq_mod (a : Nat) : a &&& 63 = a % 64 := by
  have h := and_two_pow_sub_one_eq_mod a 6
  norm_num at h
  exact h

theorem and_31_eq_mod (a : Nat) : a &&& 31 = a % 32 := by
  have h := and_two_pow_sub_one_eq_mod a 5
  norm_num at h
  exact h

theorem xor_one_ne (v : Nat) : v ^^^ 1 ≠ v := by
  intro h
  have h2 : v ^^^ (v ^^^ 1) = v ^^^ v := by rw [h]
  rw [← Nat.xor_assoc, Nat.xor_self, Nat.zero_xor] at h2
  exact one_ne_zero h2

/-- C3: executing `2nnn` pushes the current (already fetch-advanced) program
counter onto the end of the call stack and jumps to `nnn`; a following `00EE`
pops that address back into `pc`, restoring the program counter and the
previous stack contents exactly. -/
theorem call_then_return_round_trip (s : Chip8) (op : Nat)
    (hop : op &&& 0xF000 = 0x2000) :
    execute_opcode op s =
      some { s with stack := s.stack ++ [s.pc], pc := op &&& 0x0FFF } ∧
    execute_opcode 0x00EE
        { s with stack := s.stack ++ [s.pc], pc := op &&& 0x0FFF } = some s := by
  constructor
  · simp only [execute_opcode, hop]
    norm_num
  · simp only [execute_opcode, (by decide : (0x00EE &&& 0xF000 : Nat) = 0x0000)]
    norm_num [List.getLast?_concat, List.dropLast_concat]

/-- C3 witness: the spec scenario, with `pc` already fetch-advanced to
`0x202`; the call `2300` leaves stack `[0x202]` and `pc = 0x300`, and the
return restores `pc = 0x202` with an empty stack. -/
theorem call_then_return_round_trip_witness :
    (0x2300 &&& 0xF000 = 0x2000) ∧
    execute_opcode 0x2300 { initState with pc := 0x202 } =
      some { initState with pc := 0x300, stack := [0x202] } ∧
    execute_opcode 0x00EE { initState with pc := 0x300, stack := [0x202] } =
      some { initState with pc := 0x202 } :=
  ⟨by decide,
   (call_then_return_round_trip { initState with pc := 0x202 } 0x2300 (by decide)).1,
   (call_then_return_round_trip { initState with pc := 0x202 } 0x2300 (by decide)).2⟩

/-- C4: the return instruction `00EE` on an empty call stack surfaces an
error (`list.pop` raises) instead of producing a next state. -/
theorem return_on_empty_stack_fails (s : Chip8) (h : s.stack = []) :
    execute_opcode 0x00EE s = none := by
  simp [execute_opcode, (by decide : (0x00EE &&& 0xF000 : Nat) = 0x0000), h]

/-- C4 witness: the freshly constructed machine has an empty stack, and
executing `00EE` on it fails. -/
theorem return_on_empty_stack_fails_witness :
    execute_opcode 0x00EE initState = none :=
  return_on_empty_stack_fails initState rfl

/-- C5: `Fx0A` raises the key-wait flag and records the decoded `x` field in
`key_register`; and whenever the flag is up, an emulation cycle returns the
state unchanged (no fetch, no `pc` advance, no timer decrement). -/
theorem keywait_suspends_cycle (op : Nat) (s : Chip8)
    (h1 : op &&& 0xF000 = 0xF000) (h2 : op &&& 0x00FF = 0x0A) :
    execute_opcode op s =
      some { s with
              waiting_for_key := true
              key_register := (op &&& 0x0F00) >>> 8 } ∧
    ∀ t : Chip8, t.waiting_for_key = true → emulate_cycle t = some t := by
  constructor
  · simp only [execute_opcode, h1, h2]
    norm_num
  · intro t ht
    simp [emulate_cycle, ht]

/-- C5 witness: `F30A` on the initial state suspends with `key_register = 3`,
and a cycle on the suspended state is the identity. -/
theorem keywait_suspends_cycle_witness :
    execute_opcode 0xF30A initState =
      some { initState with waiting_for_key := true, key_register := 3 } ∧
    emulate_cycle { initState with waiting_for_key := true, key_register := 3 } =
      some { initState with waiting_for_key := true, key_register := 3 } :=
  ⟨(keywait_suspends_cycle 0xF30A initState (by decide) (by decide)).1,
   (keywait_suspends_cycle 0xF30A initState (by decide) (by decide)).2 _ rfl⟩

/-- C9: the interpreter cycle is a pure function of the machine state:
identical states produce identical next states (the embedding of
`emulate_cycle` takes no input other than the state — no randomness, no
clock). -/
theorem cycle_deterministic (s1 s2 : Chip8) (h : s1 = s2) :
    emulate_cycle s1 = emulate_cycle s2 := by
  rw [h]

/-- C9 witness: determinism at the initial state. -/
theorem cycle_deterministic_witness :
    emulate_cycle initState = emulate_cycle initState :=
  cycle_deterministic initState initState rfl

/-- C7: any 16-bit opcode matching none of the supported patterns falls
through every branch of `execute_opcode` and leaves the machine state
entirely unchanged. -/
theorem unknown_opcode_is_noop (op : Nat) (s : Chip8) (h16 : op < 65536)
    (h : ¬ isSupported op) : execute_opcode op s = some s := by
  simp only [isSupported, not_or] at h
  obtain ⟨hE0, hEE, h1, h2, h3, h6, h7, hA, hD, hE, hF⟩ := h
  simp only [execute_opcode]
  repeat' split
  all_goals simp_all

/-- C7 witness: `0x8123` (an arithmetic-group opcode, not implemented here)
is a no-op on the initial state. -/
theorem unknown_opcode_is_noop_witness :
    (0x8123 : Nat) < 65536 ∧ ¬ isSupported 0x8123 ∧
    execute_opcode 0x8123 initState = some initState :=
  ⟨by decide, by decide,
   unknown_opcode_is_noop 0x8123 initState (by decide) (by decide)⟩

/-- C10: the key-skip instructions index the keypad directly with `V[x]`:
whenever `V[x] ≤ 15` (and the keypad has its invariant 16 entries) execution
succeeds, but `V[x] = 16` makes both `Ex9E` and `ExA1` raise an out-of-range
indexing error. -/
theorem keypad_index_out_of_range (s : Chip8) (op : Nat)
    (hop : op &&& 0xF000 = 0xE000)
    (hnn : op &&& 0x00FF = 0x9E ∨ op &&& 0x00FF = 0xA1)
    (hlen : s.keypad.length = 16)
    (hV : s.V.getD ((op &&& 0x0F00) >>> 8) 0 ≤ 15) :
    (execute_opcode op s).isSome = true ∧
    execute_opcode 0xE09E c10state = none ∧
    execute_opcode 0xE0A1 c10state = none := by
  refine ⟨?_, by rfl, by rfl⟩
  have hidx : s.V.getD ((op &&& 0x0F00) >>> 8) 0 < s.keypad.length := by
    rw [hlen]; omega
  rw [List.getD_eq_getElem?_getD] at hidx
  rcases hnn with h9E | hA1
  · simp only [execute_opcode, hop, h9E]
    norm_num
    rw [List.getElem?_eq_getElem hidx]
    simp
  · simp only [execute_opcode, hop, hA1]
    norm_num
    rw [List.getElem?_eq_getElem hidx]
    simp

/-- C10 witness: `E09E` with `V[0] = 0` on the 16-entry keypad succeeds. -/
theorem keypad_index_out_of_range_witness :
    (execute_opcode 0xE09E initState).isSome = true ∧
    execute_opcode 0xE09E c10state = none ∧
    execute_opcode 0xE0A1 c10state = none :=
  keypad_index_out_of_range initState 0xE09E (by decide) (Or.inl (by decide))
    (by decide) (by decide)

/-- The total byte-store loop preserves the memory size. -/
theorem storeBytes_length : ∀ (bs : List Nat) (a : Nat) (mem : List Nat),
    (storeBytes bs a mem).length = mem.length
  | [], _, _ => rfl
  | b :: rest, a, mem => by
    rw [storeBytes, storeBytes_length rest (a + 1) (mem.set a b), List.length_set]

/-- The fresh machine has its full 4096-byte memory. -/
theorem initState_memory_length : initState.memory.length = 4096 := by
  show (storeBytes fontset 0 (List.replicate 4096 0)).length = 4096
  rw [storeBytes_length, List.length_replicate]

/-- Successful byte-wise store: when the last target address is in range the
loop of `load_rom` copies every byte and touches nothing else. -/
theorem writeBytes_ok : ∀ (rom : List Nat) (a : Nat) (mem : List Nat),
    a + rom.length ≤ mem.length →
    ∃ m', writeBytes rom a mem = some m' ∧ m'.length = mem.length ∧
      (∀ i, i < rom.length → m'.getD (a + i) 0 = rom.getD i 0) ∧
      (∀ b, b < a → m'.getD b 0 = mem.getD b 0) ∧
      (∀ b, a + rom.length ≤ b → m'.getD b 0 = mem.getD b 0)
  | [], a, mem, _ =>
    ⟨mem, rfl, rfl, by simp, fun _ _ => rfl, fun _ _ => rfl⟩
  | x :: rest, a, mem, h => by
    have hlen : rest.length + 1 = (x :: rest).length := by simp
    have ha : a < mem.length := by rw [← hlen] at h; omega
    obtain ⟨m', hw, hm, hin, hlo, hhi⟩ :=
      writeBytes_ok rest (a + 1) (mem.set a x)
        (by rw [List.length_set]; rw [← hlen] at h; omega)
    refine ⟨m', ?_, by rw [hm, List.length_set], ?_, ?_, ?_⟩
    · rw [writeBytes, if_pos ha]; exact hw
    · intro i hi
      match i with
      | 0 =>
        have hb := hlo a (by omega)
        rw [getD_set_self _ _ _ _ ha] at hb
        simpa using hb
      | Nat.succ i =>
        have hb := hin i (by rw [← hlen] at hi; omega)
        have hs : a + (i + 1) = a + 1 + i := by omega
        rw [hs]
        rw [hb]
        simp
    · intro b hb
      rw [hlo b (by omega), getD_set_ne _ _ _ _ _ (by omega)]
    · intro b hb
      rw [← hlen] at hb
      rw [hhi b (by omega), getD_set_ne _ _ _ _ _ (by omega)]

/-- Overrunning byte-wise store: the first out-of-range target address makes
the loop of `load_rom` raise. -/
theorem writeBytes_overflow : ∀ (rom : List Nat) (a : Nat) (mem : List Nat),
    mem.length < a + rom.length → rom ≠ [] → writeBytes rom a mem = none
  | [], _, _, _, hne => absurd rfl hne
  | x :: rest, a, mem, h, _ => by
    have hlen : rest.length + 1 = (x :: rest).length := by simp
    by_cases ha : a < mem.length
    · have hre : rest ≠ [] := by
        intro he
        subst he
        simp at h hlen
        omega
      rw [writeBytes, if_pos ha]
      exact writeBytes_overflow rest (a + 1) (mem.set a x)
        (by rw [List.length_set]; rw [← hlen] at h; omega) hre
    · rw [writeBytes, if_neg ha]

/-- C8: `load_rom` copies the ROM byte-for-byte into memory from `0x200`,
overwriting that range and leaving every other address (and every other
state component) unchanged; a ROM overrunning the 4096-byte space makes the
load fail at the boundary instead of writing past it. -/
theorem rom_load_copies_at_0x200 (rom : List Nat) (s : Chip8)
    (hmem : s.memory.length = 4096) :
    (0x200 + rom.length ≤ 4096 →
      ∃ s', load_rom rom s = some s' ∧
        s'.memory.length = 4096 ∧
        (∀ i, i < rom.length → s'.memory.getD (0x200 + i) 0 = rom.getD i 0) ∧
        (∀ a, a < 0x200 → s'.memory.getD a 0 = s.memory.getD a 0) ∧
        (∀ a, 0x200 + rom.length ≤ a → s'.memory.getD a 0 = s.memory.getD a 0) ∧
        s'.V = s.V ∧ s'.pc = s.pc ∧ s'.display = s.display ∧ s'.stack = s.stack) ∧
    (4096 < 0x200 + rom.length → load_rom rom s = none) := by
  constructor
  · intro hle
    obtain ⟨m', hw, hm, hin, hlo, hhi⟩ :=
      writeBytes_ok rom 0x200 s.memory (by omega)
    exact ⟨{ s with memory := m' }, by rw [load_rom, hw]; rfl,
      by rw [hm, hmem], hin, fun a ha => hlo a ha, fun a ha => hhi a ha,
      rfl, rfl, rfl, rfl⟩
  · intro hgt
    have hne : rom ≠ [] := by
      intro he
      subst he
      simp at hgt
    rw [load_rom, writeBytes_overflow rom 0x200 s.memory (by omega) hne]
    rfl

/-- C8 witness: loading a two-byte ROM into the fresh machine places the
bytes at `0x200` and `0x201`. -/
theorem rom_load_copies_at_0x200_witness :
    ∃ s', load_rom [0x12, 0x34] initState = some s' ∧
      s'.memory.length = 4096 ∧
      (∀ i, i < ([0x12, 0x34] : List Nat).length →
        s'.memory.getD (0x200 + i) 0 = ([0x12, 0x34] : List Nat).getD i 0) ∧
      (∀ a, a < 0x200 → s'.memory.getD a 0 = initState.memory.getD a 0) ∧
      (∀ a, 0x200 + ([0x12, 0x34] : List Nat).length ≤ a →
        s'.memory.getD a 0 = initState.memory.getD a 0) ∧
      s'.V = initState.V ∧ s'.pc = initState.pc ∧
      s'.display = initState.display ∧ s'.stack = initState.stack :=
  (rom_load_copies_at_0x200 [0x12, 0x34] initState initState_memory_length).1 (by decide)

set_option maxHeartbeats 2000000 in
/-- Every branch of `execute_opcode` keeps both timers non-negative: timers
are only ever copied, left alone, or set from a register byte. -/
theorem execute_timer_nonneg (op : Nat) (s s' : Chip8)
    (h : execute_opcode op s = some s')
    (hd : 0 ≤ s.delay_timer) (hs : 0 ≤ s.sound_timer) :
    0 ≤ s'.delay_timer ∧ 0 ≤ s'.sound_timer := by
  by_cases c0 : op &&& 0xF000 = 0x0000
  · by_cases cE0 : op = 0x00E0
    · subst cE0
      norm_num [execute_opcode, (by decide : (0x00E0 &&& 0xF000 : Nat) = 0x0000)] at h
      subst h
      exact ⟨hd, hs⟩
    · by_cases cEE : op = 0x00EE
      · subst cEE
        norm_num [execute_opcode, (by decide : (0x00EE &&& 0xF000 : Nat) = 0x0000)] at h
        cases hl : s.stack.getLast? with
        | none => rw [hl] at h; simp at h
        | some a =>
          rw [hl] at h
          simp at h
          subst h
          exact ⟨hd, hs⟩
      · simp only [execute_opcode, c0, cE0, cEE] at h
        norm_num at h
        subst h
        exact ⟨hd, hs⟩
  · by_cases c1 : op &&& 0xF000 = 0x1000
    · simp only [execute_opcode, c1] at h
      norm_num at h
      subst h
      exact ⟨hd, hs⟩
    · by_cases c2 : op &&& 0xF000 = 0x2000
      · simp only [execute_opcode, c2] at h
        norm_num at h
        subst h
        exact ⟨hd, hs⟩
      · by_cases c3 : op &&& 0xF000 = 0x3000
        · simp only [execute_opcode, c3] at h
          norm_num at h
          rw [← h]
          constructor <;> split <;> assumption
        · by_cases c6 : op &&& 0xF000 = 0x6000
          · simp only [execute_opcode, c6] at h
            norm_num at h
            subst h
            exact ⟨hd, hs⟩
          · by_cases c7 : op &&& 0xF000 = 0x7000
            · simp only [execute_opcode, c7] at h
              norm_num at h
              subst h
              exact ⟨hd, hs⟩
            · by_cases cA : op &&& 0xF000 = 0xA000
              · simp only [execute_opcode, cA] at h
                norm_num at h
                subst h
                exact ⟨hd, hs⟩
              · by_cases cE : op &&& 0xF000 = 0xE000
                · by_cases c9E : op &&& 0x00FF = 0x9E
                  · simp only [execute_opcode, cE, c9E] at h
                    norm_num at h
                    cases hk : s.keypad[s.V.getD ((op &&& 0x0F00) >>> 8) 0]? with
                    | none => rw [List.getD_eq_getElem?_getD] at hk; rw [hk] at h; simp at h
                    | some k =>
                      rw [List.getD_eq_getElem?_getD] at hk
                      rw [hk] at h
                      simp at h
                      rw [← h]
                      constructor <;> split <;> assumption
                  · by_cases cA1 : op &&& 0x00FF = 0xA1
                    · simp only [execute_opcode, cE, cA1, c9E] at h
                      norm_num at h
                      cases hk : s.keypad[s.V.getD ((op &&& 0x0F00) >>> 8) 0]? with
                      | none => rw [List.getD_eq_getElem?_getD] at hk; rw [hk] at h; simp at h
                      | some k =>
                        rw [List.getD_eq_getElem?_getD] at hk
                        rw [hk] at h
                        simp at h
                        rw [← h]
                        constructor <;> split <;> assumption
                    · simp only [execute_opcode, cE, c9E, cA1] at h
                      norm_num at h
                      subst h
                      exact ⟨hd, hs⟩
                · by_cases cF : op &&& 0xF000 = 0xF000
                  · by_cases c0A : op &&& 0x00FF = 0x0A
                    · simp only [execute_opcode, cF, c0A] at h
                      norm_num at h
                      subst h
                      exact ⟨hd, hs⟩
                    · by_cases c15 : op &&& 0x00FF = 0x15
                      · simp only [execute_opcode, cF, c15] at h
                        norm_num at h
                        subst h
                        exact ⟨Int.natCast_nonneg _, hs⟩
                      · by_cases c18 : op &&& 0x00FF = 0x18
                        · simp only [execute_opcode, cF, c0A, c15, c18] at h
                          norm_num at h
                          subst h
                          exact ⟨hd, Int.natCast_nonneg _⟩
                        · by_cases c07 : op &&& 0x00FF = 0x07
                          · simp only [execute_opcode, cF, c0A, c15, c18, c07] at h
                            norm_num at h
                            cases hb : byteOf s.delay_timer with
                            | none => rw [hb] at h; simp at h
                            | some b =>
                              rw [hb] at h
                              simp at h
                              subst h
                              exact ⟨hd, hs⟩
                          · simp only [execute_opcode, cF, c0A, c15, c18, c07] at h
                            norm_num at h
                            subst h
                            exact ⟨hd, hs⟩
                  · by_cases cD : op &&& 0xF000 = 0xD000
                    · simp only [execute_opcode, cD] at h
                      norm_num at h
                      cases hdr : drawRows s.memory s.I
                          (s.V.getD ((op &&& 0x0F00) >>> 8) 0 &&& 63)
                          (s.V.getD ((op &&& 0x00F0) >>> 4) 0 &&& 31)
                          (List.range (op &&& 0x000F)) (s.display, 0) with
                      | none =>
                        rw [List.getD_eq_getElem?_getD, List.getD_eq_getElem?_getD] at hdr
                        rw [hdr] at h
                        simp at h
                      | some dv =>
                        rw [List.getD_eq_getElem?_getD, List.getD_eq_getElem?_getD] at hdr
                        rw [hdr] at h
                        obtain ⟨d, vf⟩ := dv
                        simp at h
                        subst h
                        exact ⟨hd, hs⟩
                    · simp only [execute_opcode, c0, c1, c2, c3, c6, c7, cA, cE, cF, cD] at h
                      norm_num at h
                      subst h
                      exact ⟨hd, hs⟩

/-- The key-input refresh never touches the timers. -/
theorem handle_input_timers (pressed : List Nat) (s : Chip8) :
    (handle_input pressed s).delay_timer = s.delay_timer ∧
    (handle_input pressed s).sound_timer = s.sound_timer := by
  have step : ∀ (l : List Nat) (t : Chip8),
      (l.foldl inputStep t).delay_timer = t.delay_timer ∧
      (l.foldl inputStep t).sound_timer = t.sound_timer := by
    intro l
    induction l with
    | nil => exact fun t => ⟨rfl, rfl⟩
    | cons v rest ih =>
      intro t
      rw [List.foldl_cons]
      have hst : (inputStep t v).delay_timer = t.delay_timer ∧
          (inputStep t v).sound_timer = t.sound_timer := by
        simp only [inputStep]
        split <;> exact ⟨rfl, rfl⟩
      obtain ⟨ih1, ih2⟩ := ih (inputStep t v)
      rw [ih1, ih2, hst.1, hst.2]
      exact ⟨rfl, rfl⟩
  exact step pressed { s with keypad := List.replicate 16 0 }

/-- ROM loading never touches the timers. -/
theorem load_rom_timers (rom : List Nat) (s s' : Chip8)
    (h : load_rom rom s = some s') :
    s'.delay_timer = s.delay_timer ∧ s'.sound_timer = s.sound_timer := by
  unfold load_rom at h
  cases hw : writeBytes rom 0x200 s.memory with
  | none => rw [hw] at h; simp at h
  | some m =>
    rw [hw] at h
    simp only [Option.map_some', Option.some.injEq] at h
    rw [← h]
    exact ⟨rfl, rfl⟩

/-- One emulation cycle keeps both timers non-negative: the decrement is
guarded by positivity. -/
theorem cycle_timer_nonneg (s s' : Chip8) (h : emulate_cycle s = some s')
    (hd : 0 ≤ s.delay_timer) (hs : 0 ≤ s.sound_timer) :
    0 ≤ s'.delay_timer ∧ 0 ≤ s'.sound_timer := by
  unfold emulate_cycle at h
  split at h
  · injection h with h
    rw [← h]
    exact ⟨hd, hs⟩
  · split at h
    · rename_i hi lo heq1 heq2
      split at h
      · rename_i t hex
        have ht := execute_timer_nonneg _ _ _ hex hd hs
        injection h with h
        rw [← h]
        constructor <;> dsimp only <;> split <;> omega
      · exact absurd h (by simp)
    · exact absurd h (by simp)

/-- In every reachable state both timers are non-negative. -/
theorem reachable_timers_nonneg (u : Chip8) (h : Reachable u) :
    0 ≤ u.delay_timer ∧ 0 ≤ u.sound_timer := by
  induction h with
  | init => exact ⟨le_refl 0, le_refl 0⟩
  | load rom s s' hr hl ih =>
    obtain ⟨h1, h2⟩ := load_rom_timers rom s s' hl
    omega
  | input pressed s hr ih =>
    obtain ⟨h1, h2⟩ := handle_input_timers pressed s
    omega
  | cycle s s' hr hc ih => exact cycle_timer_nonneg s s' hc ih.1 ih.2

/-- C6: a non-suspended cycle runs the fetched instruction and then
decrements each timer by exactly 1 when it is positive, leaving it unchanged
when it is 0; consequently the timers are non-negative in every reachable
state. -/
theorem cycle_decrements_timers_once (s s' : Chip8)
    (hw : s.waiting_for_key = false) (hc : emulate_cycle s = some s') :
    (∃ hi lo t, s.memory[s.pc]? = some hi ∧ s.memory[s.pc + 1]? = some lo ∧
      execute_opcode ((hi <<< 8) ||| lo) { s with pc := s.pc + 2 } = some t ∧
      s'.delay_timer =
        (if 0 < t.delay_timer then t.delay_timer - 1 else t.delay_timer) ∧
      s'.sound_timer =
        (if 0 < t.sound_timer then t.sound_timer - 1 else t.sound_timer)) ∧
    (∀ u : Chip8, Reachable u → 0 ≤ u.delay_timer ∧ 0 ≤ u.sound_timer) := by
  refine ⟨?_, reachable_timers_nonneg⟩
  unfold emulate_cycle at hc
  split at hc
  · rename_i hwt
    rw [hw] at hwt
    exact absurd hwt (by simp)
  · split at hc
    · rename_i hi lo heq1 heq2
      split at hc
      · rename_i t hex
        injection hc with hc
        exact ⟨hi, lo, t, heq1, heq2, hex, by rw [← hc], by rw [← hc]⟩
      · exact absurd hc (by simp)
    · exact absurd hc (by simp)

/-- C6 witness: executing `6005` from delay timer 3 and sound timer 0 yields
delay timer 2 and sound timer 0. -/
theorem cycle_decrements_timers_once_witness :
    (∃ hi lo t, c6state.memory[c6state.pc]? = some hi ∧
      c6state.memory[c6state.pc + 1]? = some lo ∧
      execute_opcode ((hi <<< 8) ||| lo) { c6state with pc := c6state.pc + 2 } =
        some t ∧
      c6res.delay_timer =
        (if 0 < t.delay_timer then t.delay_timer - 1 else t.delay_timer) ∧
      c6res.sound_timer =
        (if 0 < t.sound_timer then t.sound_timer - 1 else t.sound_timer)) ∧
    (∀ u : Chip8, Reachable u → 0 ≤ u.delay_timer ∧ 0 ≤ u.sound_timer) :=
  cycle_decrements_timers_once c6state c6res rfl rfl

/-- Membership in the toggled-column list of one sprite row: since the column
indices are strictly increasing, the `break` at the first clipped column
drops exactly the columns with `xc + c ≥ 64`. -/
theorem mem_colHits (sr xc : Nat) :
    ∀ (cs : List Nat), cs.Pairwise (· < ·) → ∀ j : Nat,
      (j ∈ colHits sr xc cs ↔
        ∃ c ∈ cs, xc + c < 64 ∧ j = xc + c ∧ sr &&& (0x80 >>> c) ≠ 0)
  | [], _, j => by simp [colHits]
  | c :: rest, hp, j => by
    obtain ⟨hhead, htail⟩ := List.pairwise_cons.mp hp
    rw [colHits]
    by_cases h64 : 64 ≤ xc + c
    · rw [if_pos h64]
      constructor
      · intro hh
        exact absurd hh (List.not_mem_nil _)
      · rintro ⟨c', hc', hlt, -, -⟩
        rcases List.mem_cons.mp hc' with rfl | hmem
        · omega
        · have := hhead c' hmem
          omega
    · rw [if_neg h64]
      by_cases hbit : sr &&& (0x80 >>> c) ≠ 0
      · rw [if_pos hbit]
        rw [List.mem_cons, mem_colHits sr xc rest htail j]
        constructor
        · rintro (rfl | ⟨c', hc', h1, h2, h3⟩)
          · exact ⟨c, List.mem_cons_self c rest, by omega, rfl, hbit⟩
          · exact ⟨c', List.mem_cons_of_mem c hc', h1, h2, h3⟩
        · rintro ⟨c', hc', h1, h2, h3⟩
          rcases List.mem_cons.mp hc' with rfl | hmem
          · exact Or.inl h2
          · exact Or.inr ⟨c', hmem, h1, h2, h3⟩
      · rw [if_neg hbit]
        rw [mem_colHits sr xc rest htail j]
        constructor
        · rintro ⟨c', hc', h1, h2, h3⟩
          exact ⟨c', List.mem_cons_of_mem c hc', h1, h2, h3⟩
        · rintro ⟨c', hc', h1, h2, h3⟩
          rcases List.mem_cons.mp hc' with rfl | hmem
          · exact absurd h3 hbit
          · exact ⟨c', hmem, h1, h2, h3⟩

/-- Behaviour of the inner draw loop over one sprite row: it preserves the
display shape, XOR-toggles exactly the pixels of `colHits` on row `yr`, and
turns the collision flag to 1 exactly when one of those pixels was lit. -/
theorem drawCols_spec (sr xc yr : Nat) :
    ∀ (cs : List Nat) (d : List (List Nat)) (vf : Nat),
      dispWF d → yr < 32 → cs.Pairwise (· < ·) →
      dispWF (drawCols sr xc yr cs (d, vf)).1 ∧
      (∀ a b, dget (drawCols sr xc yr cs (d, vf)).1 a b =
        if a = yr ∧ b ∈ colHits sr xc cs then dget d a b ^^^ 1 else dget d a b) ∧
      ((drawCols sr xc yr cs (d, vf)).2 =
        if ∃ p ∈ colHits sr xc cs, dget d yr p ≠ 0 then 1 else vf)
  | [], d, vf, hwf, hyr, _ => by
    simp only [drawCols, colHits]
    refine ⟨hwf, fun a b => ?_, ?_⟩
    · simp
    · simp
  | c :: rest, d, vf, hwf, hyr, hp => by
    obtain ⟨hhead, htail⟩ := List.pairwise_cons.mp hp
    simp only [drawCols]
    by_cases h64 : 64 ≤ xc + c
    · have hch : colHits sr xc (c :: rest) = [] := by
        rw [colHits, if_pos h64]
      rw [hch, if_pos h64]
      refine ⟨hwf, fun a b => ?_, ?_⟩
      · simp
      · simp
    · rw [if_neg h64]
      have hj : xc + c < 64 := by omega
      by_cases hbit : sr &&& (0x80 >>> c) ≠ 0
      · have hch : colHits sr xc (c :: rest) = (xc + c) :: colHits sr xc rest := by
          rw [colHits, if_neg h64, if_pos hbit]
        rw [hch, if_pos hbit]
        have hwf1 : dispWF (dset d yr (xc + c) (dget d yr (xc + c) ^^^ 1)) :=
          dispWF_dset hwf hyr _ _
        obtain ⟨iwf, ipix, ivf⟩ :=
          drawCols_spec sr xc yr rest
            (dset d yr (xc + c) (dget d yr (xc + c) ^^^ 1))
            (if dget d yr (xc + c) ≠ 0 then 1 else vf) hwf1 hyr htail
        have hnotin : xc + c ∉ colHits sr xc rest := by
          intro hmem
          obtain ⟨c', hc', hlt, heq, hbit'⟩ := (mem_colHits sr xc rest htail _).mp hmem
          have := hhead c' hc'
          omega
        have hd1get : ∀ a b,
            dget (dset d yr (xc + c) (dget d yr (xc + c) ^^^ 1)) a b =
              if a = yr ∧ b = xc + c then dget d yr (xc + c) ^^^ 1 else dget d a b :=
          fun a b => dget_dset hwf hyr hj _ a b
        refine ⟨iwf, fun a b => ?_, ?_⟩
        · rw [ipix a b]
          by_cases ha : a = yr
          · by_cases hbc : b = xc + c
            · have hn1 : ¬(a = yr ∧ b ∈ colHits sr xc rest) := by
                rintro ⟨-, hmem⟩
                exact hnotin (hbc ▸ hmem)
              have hmc : b ∈ (xc + c) :: colHits sr xc rest := by
                rw [hbc]
                exact List.mem_cons_self _ _
              rw [if_neg hn1, hd1get, if_pos ⟨ha, hbc⟩, if_pos ⟨ha, hmc⟩, ha, hbc]
            · have hd1b : dget (dset d yr (xc + c) (dget d yr (xc + c) ^^^ 1)) a b =
                  dget d a b := by
                rw [hd1get]
                exact if_neg (by rintro ⟨-, hh⟩; exact hbc hh)
              by_cases hbm : b ∈ colHits sr xc rest
              · rw [if_pos ⟨ha, hbm⟩, if_pos ⟨ha, List.mem_cons_of_mem _ hbm⟩, hd1b]
              · have hn1 : ¬(a = yr ∧ b ∈ colHits sr xc rest) := by
                  rintro ⟨-, hmem⟩
                  exact hbm hmem
                have hn2 : ¬(a = yr ∧ b ∈ (xc + c) :: colHits sr xc rest) := by
                  rintro ⟨-, hmem⟩
                  rcases List.mem_cons.mp hmem with h' | h'
                  · exact hbc h'
                  · exact hbm h'
                rw [if_neg hn1, hd1b, if_neg hn2]
          · have hd1b : dget (dset d yr (xc + c) (dget d yr (xc + c) ^^^ 1)) a b =
                dget d a b := by
              rw [hd1get]
              exact if_neg (by rintro ⟨hh, -⟩; exact ha hh)
            have hn1 : ¬(a = yr ∧ b ∈ colHits sr xc rest) := by
              rintro ⟨hh, -⟩
              exact ha hh
            have hn2 : ¬(a = yr ∧ b ∈ (xc + c) :: colHits sr xc rest) := by
              rintro ⟨hh, -⟩
              exact ha hh
            rw [if_neg hn1, if_neg hn2, hd1b]
        · rw [ivf]
          have hq : ∀ q, q ∈ colHits sr xc rest →
              dget (dset d yr (xc + c) (dget d yr (xc + c) ^^^ 1)) yr q = dget d yr q := by
            intro q hmem
            rw [hd1get]
            exact if_neg (by rintro ⟨-, hh⟩; exact hnotin (hh ▸ hmem))
          have hexiff :
              (∃ p ∈ colHits sr xc rest,
                dget (dset d yr (xc + c) (dget d yr (xc + c) ^^^ 1)) yr p ≠ 0) ↔
              (∃ p ∈ colHits sr xc rest, dget d yr p ≠ 0) := by
            constructor
            · rintro ⟨q, hmem, hlit⟩
              exact ⟨q, hmem, by rwa [hq q hmem] at hlit⟩
            · rintro ⟨q, hmem, hlit⟩
              exact ⟨q, hmem, by rwa [hq q hmem]⟩
          rw [if_congr hexiff rfl rfl]
          by_cases hex : ∃ p ∈ colHits sr xc rest, dget d yr p ≠ 0
          · rw [if_pos hex]
            obtain ⟨q, hmem, hlit⟩ := hex
            rw [if_pos ⟨q, List.mem_cons_of_mem _ hmem, hlit⟩]
          · rw [if_neg hex]
            by_cases hp0 : dget d yr (xc + c) ≠ 0
            · rw [if_pos hp0, if_pos ⟨xc + c, List.mem_cons_self _ _, hp0⟩]
            · rw [if_neg hp0, if_neg ?_]
              rintro ⟨q, hmem, hlit⟩
              rcases List.mem_cons.mp hmem with rfl | hmem'
              · exact hp0 hlit
              · exact hex ⟨q, hmem', hlit⟩
      · have hch : colHits sr xc (c :: rest) = colHits sr xc rest := by
          rw [colHits, if_neg h64, if_neg hbit]
        rw [hch, if_neg hbit]
        exact drawCols_spec sr xc yr rest d vf hwf hyr htail

/-- Behaviour of the outer draw loop: with strictly increasing row indices
the `break` at the first clipped row drops exactly the rows with
`yc + r ≥ 32`; the loop XOR-toggles the hit pixels of each surviving row and
reports a collision exactly when one hit pixel of the starting display was
lit. -/
theorem drawRows_spec (mem : List Nat) (iR xc : Nat) :
    ∀ (rs : List Nat) (yc : Nat) (d : List (List Nat)) (vf : Nat)
      (res : List (List Nat) × Nat),
      dispWF d → rs.Pairwise (· < ·) →
      drawRows mem iR xc yc rs (d, vf) = some res →
      dispWF res.1 ∧
      (∀ a b, dget res.1 a b =
        if ∃ r ∈ rs, yc + r < 32 ∧ a = yc + r ∧
            b ∈ colHits (mem.getD (iR + r) 0) xc (List.range 8)
        then dget d a b ^^^ 1 else dget d a b) ∧
      (res.2 =
        if ∃ r ∈ rs, yc + r < 32 ∧
            ∃ p ∈ colHits (mem.getD (iR + r) 0) xc (List.range 8),
              dget d (yc + r) p ≠ 0
        then 1 else vf)
  | [], yc, d, vf, res, hwf, _, h => by
    simp only [drawRows, Option.some.injEq] at h
    subst h
    refine ⟨hwf, fun a b => ?_, ?_⟩
    · simp
    · simp
  | r :: rest, yc, d, vf, res, hwf, hp, h => by
    obtain ⟨hhead, htail⟩ := List.pairwise_cons.mp hp
    simp only [drawRows] at h
    by_cases h32 : 32 ≤ yc + r
    · rw [if_pos h32] at h
      simp only [Option.some.injEq] at h
      subst h
      have hc1 : ∀ a b, ¬(∃ r' ∈ r :: rest, yc + r' < 32 ∧ a = yc + r' ∧
          b ∈ colHits (mem.getD (iR + r') 0) xc (List.range 8)) := by
        intro a b
        rintro ⟨r', hmem, hlt, -, -⟩
        rcases List.mem_cons.mp hmem with rfl | hmem'
        · omega
        · have := hhead r' hmem'
          omega
      have hc2 : ¬(∃ r' ∈ r :: rest, yc + r' < 32 ∧
          ∃ p ∈ colHits (mem.getD (iR + r') 0) xc (List.range 8),
            dget d (yc + r') p ≠ 0) := by
        rintro ⟨r', hmem, hlt, -⟩
        rcases List.mem_cons.mp hmem with rfl | hmem'
        · omega
        · have := hhead r' hmem'
          omega
      refine ⟨hwf, fun a b => ?_, ?_⟩
      · rw [if_neg (hc1 a b)]
      · rw [if_neg hc2]
    · rw [if_neg h32] at h
      have hyr : yc + r < 32 := by omega
      cases hm : mem[iR + r]? with
      | none =>
        rw [hm] at h
        simp at h
      | some sr =>
        rw [hm] at h
        have h' : drawRows mem iR xc yc rest
            ((drawCols sr xc (yc + r) (List.range 8) (d, vf)).1,
             (drawCols sr xc (yc + r) (List.range 8) (d, vf)).2) = some res := h
        have hsr : mem.getD (iR + r) 0 = sr := by
          rw [List.getD_eq_getElem?_getD, hm]
          rfl
        obtain ⟨cwf, cpix, cvf⟩ :=
          drawCols_spec sr xc (yc + r) (List.range 8) d vf hwf hyr
            (List.pairwise_lt_range 8)
        obtain ⟨iwf, ipix, ivf⟩ :=
          drawRows_spec mem iR xc rest yc _ _ res cwf htail h'
        refine ⟨iwf, fun a b => ?_, ?_⟩
        · by_cases hcr : ∃ r' ∈ rest, yc + r' < 32 ∧ a = yc + r' ∧
              b ∈ colHits (mem.getD (iR + r') 0) xc (List.range 8)
          · obtain ⟨r', hr', hlt', ha', hb'⟩ := hcr
            have hane : ¬(a = yc + r ∧ b ∈ colHits sr xc (List.range 8)) := by
              rintro ⟨haa, -⟩
              have := hhead r' hr'
              omega
            rw [ipix a b, if_pos ⟨r', hr', hlt', ha', hb'⟩, cpix a b,
              if_neg hane, if_pos ⟨r', List.mem_cons_of_mem _ hr', hlt', ha', hb'⟩]
          · by_cases hhr : a = yc + r ∧ b ∈ colHits sr xc (List.range 8)
            · have hcons : ∃ r' ∈ r :: rest, yc + r' < 32 ∧ a = yc + r' ∧
                  b ∈ colHits (mem.getD (iR + r') 0) xc (List.range 8) := by
                refine ⟨r, List.mem_cons_self _ _, hyr, hhr.1, ?_⟩
                rw [hsr]
                exact hhr.2
              rw [ipix a b, if_neg hcr, cpix a b, if_pos hhr, if_pos hcons]
            · have hnone : ¬(∃ r' ∈ r :: rest, yc + r' < 32 ∧ a = yc + r' ∧
                  b ∈ colHits (mem.getD (iR + r') 0) xc (List.range 8)) := by
                rintro ⟨r', hmem, hlt', ha', hb'⟩
                rcases List.mem_cons.mp hmem with rfl | hmem'
                · exact hhr ⟨ha', hsr ▸ hb'⟩
                · exact hcr ⟨r', hmem', hlt', ha', hb'⟩
              rw [ipix a b, if_neg hcr, cpix a b, if_neg hhr, if_neg hnone]
        · have htrans : ∀ r', r' ∈ rest → ∀ p,
              dget (drawCols sr xc (yc + r) (List.range 8) (d, vf)).1 (yc + r') p =
                dget d (yc + r') p := by
            intro r' hr' p
            rw [cpix]
            have : ¬(yc + r' = yc + r ∧ p ∈ colHits sr xc (List.range 8)) := by
              rintro ⟨he, -⟩
              have := hhead r' hr'
              omega
            rw [if_neg this]
          have hrowiff :
              (∃ r' ∈ rest, yc + r' < 32 ∧
                ∃ p ∈ colHits (mem.getD (iR + r') 0) xc (List.range 8),
                  dget (drawCols sr xc (yc + r) (List.range 8) (d, vf)).1 (yc + r') p ≠ 0) ↔
              (∃ r' ∈ rest, yc + r' < 32 ∧
                ∃ p ∈ colHits (mem.getD (iR + r') 0) xc (List.range 8),
                  dget d (yc + r') p ≠ 0) := by
            constructor
            · rintro ⟨r', hr', hlt', p, hp, hlit⟩
              exact ⟨r', hr', hlt', p, hp, by rwa [htrans r' hr' p] at hlit⟩
            · rintro ⟨r', hr', hlt', p, hp, hlit⟩
              exact ⟨r', hr', hlt', p, hp, by rwa [htrans r' hr' p]⟩
          rw [ivf, if_congr hrowiff rfl rfl]
          by_cases hex : ∃ r' ∈ rest, yc + r' < 32 ∧
              ∃ p ∈ colHits (mem.getD (iR + r') 0) xc (List.range 8),
                dget d (yc + r') p ≠ 0
          · obtain ⟨r', hr', hlt', p, hp, hlit⟩ := hex
            rw [if_pos ⟨r', hr', hlt', p, hp, hlit⟩,
              if_pos ⟨r', List.mem_cons_of_mem _ hr', hlt', p, hp, hlit⟩]
          · rw [if_neg hex, cvf]
            by_cases hpr : ∃ p ∈ colHits sr xc (List.range 8), dget d (yc + r) p ≠ 0
            · obtain ⟨p, hp, hlit⟩ := hpr
              have hcons : ∃ r' ∈ r :: rest, yc + r' < 32 ∧
                  ∃ q ∈ colHits (mem.getD (iR + r') 0) xc (List.range 8),
                    dget d (yc + r') q ≠ 0 := by
                refine ⟨r, List.mem_cons_self _ _, hyr, p, ?_, hlit⟩
                rw [hsr]
                exact hp
              rw [if_pos ⟨p, hp, hlit⟩, if_pos hcons]
            · have hnone : ¬(∃ r' ∈ r :: rest, yc + r' < 32 ∧
                  ∃ q ∈ colHits (mem.getD (iR + r') 0) xc (List.range 8),
                    dget d (yc + r') q ≠ 0) := by
                rintro ⟨r', hmem, hlt', q, hq, hlit⟩
                rcases List.mem_cons.mp hmem with rfl | hmem'
                · exact hpr ⟨q, hsr ▸ hq, hlit⟩
                · exact hex ⟨r', hmem', hlt', q, hq, hlit⟩
              rw [if_neg hpr, if_neg hnone]

/-- Navigation into the `Dxyn` branch of `execute_opcode`: a successful
execution of a draw opcode is exactly a successful `drawRows` run on the
masked coordinates, whose resulting display replaces the screen and whose
flag lands in `V[0xF]`. -/
theorem execute_draw (op : Nat) (s s' : Chip8)
    (hop : op &&& 0xF000 = 0xD000)
    (h : execute_opcode op s = some s') :
    ∃ dv, drawRows s.memory s.I
        (s.V.getD ((op &&& 0x0F00) >>> 8) 0 &&& 63)
        (s.V.getD ((op &&& 0x00F0) >>> 4) 0 &&& 31)
        (List.range (op &&& 0x000F)) (s.display, 0) = some dv ∧
      s' = { s with display := dv.1, V := s.V.set 15 dv.2 } := by
  simp only [execute_opcode, hop] at h
  norm_num at h
  cases hdr : drawRows s.memory s.I
      (s.V.getD ((op &&& 0x0F00) >>> 8) 0 &&& 63)
      (s.V.getD ((op &&& 0x00F0) >>> 4) 0 &&& 31)
      (List.range (op &&& 0x000F)) (s.display, 0) with
  | none =>
    rw [List.getD_eq_getElem?_getD, List.getD_eq_getElem?_getD] at hdr
    rw [hdr] at h
    simp at h
  | some dv =>
    obtain ⟨d, vf⟩ := dv
    refine ⟨(d, vf), rfl, ?_⟩
    rw [List.getD_eq_getElem?_getD, List.getD_eq_getElem?_getD] at hdr
    rw [hdr] at h
    simp at h
    subst h
    rfl

/-- The pixel-hit predicate coincides with membership in the per-row toggle
lists of the draw loops. -/
theorem drawnAt_iff (mem : List Nat) (iR x0 y0 n i j : Nat) :
    drawnAt mem iR x0 y0 n i j ↔
      ∃ r ∈ List.range n, y0 + r < 32 ∧ i = y0 + r ∧
        j ∈ colHits (mem.getD (iR + r) 0) x0 (List.range 8) := by
  unfold drawnAt
  exact exists_congr fun r => and_congr_right fun _ => and_congr_right fun _ =>
    and_congr_right fun _ => (mem_colHits _ x0 _ (List.pairwise_lt_range 8) j).symm

/-- The collision predicate coincides with a lit pixel among the per-row
toggle lists of the draw loops. -/
theorem collideAt_iff (mem : List Nat) (iR x0 y0 n : Nat) (d : List (List Nat)) :
    collideAt mem iR x0 y0 n d ↔
      ∃ r ∈ List.range n, y0 + r < 32 ∧
        ∃ p ∈ colHits (mem.getD (iR + r) 0) x0 (List.range 8),
          dget d (y0 + r) p ≠ 0 := by
  unfold collideAt
  refine exists_congr fun r => and_congr_right fun _ => and_congr_right fun _ => ?_
  constructor
  · rintro ⟨c, hc, h64, hbit, hlit⟩
    exact ⟨x0 + c,
      (mem_colHits _ x0 _ (List.pairwise_lt_range 8) _).mpr ⟨c, hc, h64, rfl, hbit⟩,
      hlit⟩
  · rintro ⟨p, hp, hlit⟩
    obtain ⟨c, hc, h64, rfl, hbit⟩ :=
      (mem_colHits _ x0 _ (List.pairwise_lt_range 8) _).mp hp
    exact ⟨c, hc, h64, hbit, hlit⟩

/-- C1: a successful `Dxyn` draw starts at `(V[x] mod 64, V[y] mod 32)`,
XOR-toggles exactly the set sprite bits whose target row is below 32 and
target column below 64 (row clipping ends the draw, column clipping ends the
row), and writes into `V[F]` precisely 1 when a toggled pixel was already
lit and 0 otherwise, leaving the other registers unchanged. -/
theorem draw_clips_and_sets_collision_flag (op : Nat) (s s' : Chip8)
    (hop : op &&& 0xF000 = 0xD000)
    (hwf : dispWF s.display)
    (h : execute_opcode op s = some s') :
    (∀ i j, i < 32 → j < 64 →
      dget s'.display i j =
        if drawnAt s.memory s.I (s.V.getD ((op &&& 0x0F00) >>> 8) 0 % 64)
            (s.V.getD ((op &&& 0x00F0) >>> 4) 0 % 32) (op &&& 0x000F) i j
        then dget s.display i j ^^^ 1 else dget s.display i j) ∧
    s'.V = s.V.set 15
      (if collideAt s.memory s.I (s.V.getD ((op &&& 0x0F00) >>> 8) 0 % 64)
          (s.V.getD ((op &&& 0x00F0) >>> 4) 0 % 32) (op &&& 0x000F) s.display
       then 1 else 0) := by
  obtain ⟨dv, hdr, hs'⟩ := execute_draw op s s' hop h
  obtain ⟨rwf, rpix, rvf⟩ :=
    drawRows_spec s.memory s.I _ (List.range (op &&& 0x000F)) _ s.display 0 dv
      hwf (List.pairwise_lt_range _) hdr
  subst hs'
  rw [← and_63_eq_mod, ← and_31_eq_mod]
  constructor
  · intro i j hi hj
    show dget dv.1 i j = _
    rw [rpix i j]
    exact if_congr (drawnAt_iff _ _ _ _ _ _ _).symm rfl rfl
  · show s.V.set 15 dv.2 = _
    rw [rvf]
    exact congrArg (s.V.set 15)
      (if_congr (collideAt_iff _ _ _ _ _ _).symm rfl rfl)

/-- C1 witness: drawing sprite `0xF0` at `(0, 0)` on a blank display. -/
theorem draw_clips_and_sets_collision_flag_witness :
    (∀ i j, i < 32 → j < 64 →
      dget c1res.display i j =
        if drawnAt c1state.memory c1state.I
            (c1state.V.getD ((0xD011 &&& 0x0F00) >>> 8) 0 % 64)
            (c1state.V.getD ((0xD011 &&& 0x00F0) >>> 4) 0 % 32)
            (0xD011 &&& 0x000F) i j
        then dget c1state.display i j ^^^ 1 else dget c1state.display i j) ∧
    c1res.V = c1state.V.set 15
      (if collideAt c1state.memory c1state.I
          (c1state.V.getD ((0xD011 &&& 0x0F00) >>> 8) 0 % 64)
          (c1state.V.getD ((0xD011 &&& 0x00F0) >>> 4) 0 % 32)
          (0xD011 &&& 0x000F) c1state.display
       then 1 else 0) :=
  draw_clips_and_sets_collision_flag 0xD011 c1state c1res (by decide) ⟨rfl, by decide⟩ rfl

/-- C2 counterexample: on a display whose only lit pixel is exactly the one
pixel the sprite draws, both draws succeed with identical `V[x]`, `V[y]`,
`I` and sprite memory, yet the second draw leaves `V[F] = 0`, not 1. -/
theorem draw_twice_collision_flag_counterexample :
    execute_opcode 0xD011 c2state = some c2dmid ∧
    execute_opcode 0xD011 c2dmid = some c2dend ∧
    c2dend.V.getD 15 0 ≠ 1 :=
  ⟨rfl, rfl, by decide⟩

/-- C2 (amended): drawing the same sprite twice restores every pixel of the
display, and the second draw reports a collision (`V[F] = 1`) exactly when
the first draw turned some previously unlit pixel on. -/
theorem draw_twice_restores_pixels (op : Nat) (s s1 s2 : Chip8)
    (hop : op &&& 0xF000 = 0xD000)
    (hx : (op &&& 0x0F00) >>> 8 ≠ 15)
    (hy : (op &&& 0x00F0) >>> 4 ≠ 15)
    (hwf : dispWF s.display)
    (hV : s.V.length = 16)
    (h1 : execute_opcode op s = some s1)
    (h2 : execute_opcode op s1 = some s2) :
    s2.display = s.display ∧
    (s2.V.getD 15 0 = 1 ↔
      ∃ i ∈ List.range 32, ∃ j ∈ List.range 64,
        dget s1.display i j ≠ dget s.display i j ∧ dget s1.display i j ≠ 0) := by
  obtain ⟨dv1, hdr1, hs1⟩ := execute_draw op s s1 hop h1
  subst hs1
  obtain ⟨dv2, hdr2, hs2⟩ := execute_draw op _ s2 hop h2
  subst hs2
  dsimp only at hdr2 ⊢
  have hvx : (s.V.set 15 dv1.2).getD ((op &&& 0x0F00) >>> 8) 0 =
      s.V.getD ((op &&& 0x0F00) >>> 8) 0 :=
    getD_set_ne _ _ _ _ _ (fun hh => hx hh.symm)
  have hvy : (s.V.set 15 dv1.2).getD ((op &&& 0x00F0) >>> 4) 0 =
      s.V.getD ((op &&& 0x00F0) >>> 4) 0 :=
    getD_set_ne _ _ _ _ _ (fun hh => hy hh.symm)
  rw [hvx, hvy] at hdr2
  obtain ⟨wf1, pix1, vf1⟩ :=
    drawRows_spec s.memory s.I _ (List.range (op &&& 0x000F)) _ s.display 0 dv1
      hwf (List.pairwise_lt_range _) hdr1
  obtain ⟨wf2, pix2, vf2⟩ :=
    drawRows_spec s.memory s.I _ (List.range (op &&& 0x000F)) _ dv1.1 0 dv2
      wf1 (List.pairwise_lt_range _) hdr2
  constructor
  · apply dispExt wf2 hwf
    intro a b ha hb
    rw [pix2 a b, pix1 a b]
    by_cases hc : ∃ r ∈ List.range (op &&& 0x000F),
        (s.V.getD ((op &&& 0x00F0) >>> 4) 0 &&& 31) + r < 32 ∧
        a = (s.V.getD ((op &&& 0x00F0) >>> 4) 0 &&& 31) + r ∧
        b ∈ colHits (s.memory.getD (s.I + r) 0)
          (s.V.getD ((op &&& 0x0F00) >>> 8) 0 &&& 63) (List.range 8)
    · rw [if_pos hc, if_pos hc, Nat.xor_assoc]
      norm_num
    · rw [if_neg hc, if_neg hc]
  · rw [getD_set_self _ _ _ _ (by rw [List.length_set, hV]; omega), vf2]
    constructor
    · intro hone
      by_cases hcoll : ∃ r ∈ List.range (op &&& 0x000F),
          (s.V.getD ((op &&& 0x00F0) >>> 4) 0 &&& 31) + r < 32 ∧
          ∃ p ∈ colHits (s.memory.getD (s.I + r) 0)
              (s.V.getD ((op &&& 0x0F00) >>> 8) 0 &&& 63) (List.range 8),
            dget dv1.1 ((s.V.getD ((op &&& 0x00F0) >>> 4) 0 &&& 31) + r) p ≠ 0
      · obtain ⟨r, hr, hlt, p, hp, hlit⟩ := hcoll
        obtain ⟨c, hc8, h64, rfl, hbit⟩ :=
          (mem_colHits _ _ _ (List.pairwise_lt_range 8) _).mp hp
        refine ⟨(s.V.getD ((op &&& 0x00F0) >>> 4) 0 &&& 31) + r,
          List.mem_range.mpr hlt,
          (s.V.getD ((op &&& 0x0F00) >>> 8) 0 &&& 63) + c,
          List.mem_range.mpr h64, ?_, hlit⟩
        rw [pix1, if_pos ⟨r, hr, hlt, rfl, hp⟩]
        exact xor_one_ne _
      · rw [if_neg hcoll] at hone
        exact absurd hone (by norm_num)
    · rintro ⟨i, hi, j, hj, hdiff, hlit⟩
      have hC : ∃ r ∈ List.range (op &&& 0x000F),
          (s.V.getD ((op &&& 0x00F0) >>> 4) 0 &&& 31) + r < 32 ∧
          i = (s.V.getD ((op &&& 0x00F0) >>> 4) 0 &&& 31) + r ∧
          j ∈ colHits (s.memory.getD (s.I + r) 0)
            (s.V.getD ((op &&& 0x0F00) >>> 8) 0 &&& 63) (List.range 8) := by
        by_contra hC
        rw [pix1 i j, if_neg hC] at hdiff
        exact hdiff rfl
      obtain ⟨r, hr, hlt, hieq, hjmem⟩ := hC
      rw [if_pos ⟨r, hr, hlt, j, hjmem, by rw [← hieq]; exact hlit⟩]

/-- C2 witness: drawing sprite `0x80` twice at `(0, 0)` on a blank display
restores the display, and the second draw collides (flag 1) because the
first draw lit pixel `(0, 0)`. -/
theorem draw_twice_restores_pixels_witness :
    c2wend.display = c2wstate.display ∧
    (c2wend.V.getD 15 0 = 1 ↔
      ∃ i ∈ List.range 32, ∃ j ∈ List.range 64,
        dget c2wmid.display i j ≠ dget c2wstate.display i j ∧
        dget c2wmid.display i j ≠ 0) :=
  draw_twice_restores_pixels 0xD011 c2wstate c2wmid c2wend (by decide) (by decide)
    (by decide) ⟨rfl, by decide⟩ (by decide) rfl rfl
